import Mathlib

/-!
Shallow embedding of the quantitative core of the FINANCIAL-RISK-PREDICTION-SYSTEM
repository (src/risk_calculator.py, src/monte_carlo.py, src/portfolio_manager.py).

Modelling conventions:
* Python/numpy floats are modelled by `ℚ`.  The two irrational primitives the
  code uses, `np.sqrt` and `scipy.stats.norm.ppf`, are passed in as abstract
  function parameters `sqrtFn ppf : ℚ → ℚ`; every theorem below holds for an
  arbitrary choice of these parameters, hence in particular for the real ones.
* The external price provider is modelled by passing, for each symbol, the
  date-sorted list of close prices (`data : List (List ℚ)`); an empty list is
  the provider's "no data" signal (`data['data'] == []`).
* Python exceptions are modelled with `Except CalcError`: a function body that
  can raise returns `Except CalcError α`, and a `try/except` wrapper pattern
  matches on the result.
* Where the float value of a division can be non-finite (`x / 0.0` inside a
  numpy array produces `inf`/`nan` without raising), the value is modelled by
  `FloatVal`, which tags the result as finite or non-finite.
-/

namespace FinRisk

/-- Python exceptions that the embedded code can raise. -/
inductive CalcError where
  | valueError
  | zeroDivisionError
deriving DecidableEq

/-- A numpy float that is either an ordinary (finite) value or `inf`/`nan`. -/
inductive FloatVal where
  | fin (q : ℚ)
  | nonfin
deriving DecidableEq

/-- Model of `np.isfinite` on a `FloatVal`. -/
def FloatVal.isFinite : FloatVal → Bool
  | .fin _ => true
  | .nonfin => false

/-- Float division: non-finite (`inf`/`nan`) when the denominator is zero. -/
def divF (a b : ℚ) : FloatVal :=
  if b = 0 then .nonfin else .fin (a / b)

/-- Mean of a list, `pandas`/`numpy` style (`sum / len`). -/
def listMean (xs : List ℚ) : ℚ := xs.sum / xs.length

/-- Sample variance with `ddof = 1` (`pandas` `Series.std` squared). -/
def sampleVar (xs : List ℚ) : ℚ :=
  ((xs.map (fun x => (x - listMean xs) ^ 2)).sum) / ((xs.length : ℚ) - 1)

/-- Population variance with `ddof = 0` (`np.std` squared). -/
def popVar (xs : List ℚ) : ℚ :=
  ((xs.map (fun x => (x - listMean xs) ^ 2)).sum) / (xs.length : ℚ)

/-- Python `min` over a non-empty list of rationals (0 on `[]`, unreached). -/
def listMinQ : List ℚ → ℚ
  | [] => 0
  | x :: xs => xs.foldl min x

/-- Model of `np.percentile(xs, q)` with the default linear interpolation:
sort the data, set `pos = q/100 * (n-1)`, and interpolate between the
neighbouring order statistics. -/
def percentile (xs : List ℚ) (q : ℚ) : ℚ :=
  let s := xs.insertionSort (· ≤ ·)
  let pos : ℚ := q / 100 * ((s.length : ℚ) - 1)
  let i : ℕ := (⌊pos⌋).toNat
  let lo := s.getD i 0
  let hi := s.getD (i + 1) lo
  lo + (pos - (i : ℚ)) * (hi - lo)

/-! ## Return Series Builder (`risk_calculator._get_portfolio_returns`) -/

/-- Value view of `np.diff(prices) / prices[:-1]`: simple daily returns over consecutive
closes (value view; a division by a zero close yields `ℚ`-junk here, the
finiteness-tracking view is `dailyReturnsF` below). -/
def dailyReturns (closes : List ℚ) : List ℚ :=
  (closes.zip closes.tail).map (fun p => (p.2 - p.1) / p.1)

/-- Finiteness-tracking view of `np.diff(prices) / prices[:-1]`: the entry for a
consecutive pair whose earlier close is `0` is non-finite (`inf`/`nan`).
`risk_calculator._get_portfolio_returns` (lines 120-126) uses this array
as-is, with no `np.isfinite` filter. -/
def dailyReturnsF (closes : List ℚ) : List FloatVal :=
  (closes.zip closes.tail).map (fun p => divF (p.2 - p.1) p.1)

/-- The per-asset return series used by `portfolio_manager._simple_max_sharpe`
(lines 86-90): daily returns with non-finite entries removed by
`returns[np.isfinite(returns)]`. -/
def maxSharpeReturns (closes : List ℚ) : List FloatVal :=
  (dailyReturnsF closes).filter FloatVal.isFinite

/-- Python `min(len(r) for r in rl)` over a non-empty list (0 on `[]`). -/
def minLen : List (List ℚ) → ℕ
  | [] => 0
  | r :: rs => rs.foldl (fun m s => min m s.length) r.length

/-- Trailing slice `returns[-L:]`: the last `L` elements of a series. -/
def trailing (L : ℕ) (xs : List ℚ) : List ℚ := xs.drop (xs.length - L)

/-- Lines 125-126 of `risk_calculator.py`: each asset's return series scaled
by its weight (`returns * weights[i]`), series paired with weights by index. -/
def weightedReturns (rs : List (List ℚ)) (ws : List ℚ) : List (List ℚ) :=
  (rs.zip ws).map (fun p => p.1.map (fun r => r * p.2))

/-- Lines 132-138 of `risk_calculator.py`: align every series to the minimum
length by keeping its trailing elements, then sum elementwise starting from
`np.zeros(min_length)`. -/
def alignAndSum (rl : List (List ℚ)) : List ℚ :=
  let L := minLen rl
  rl.foldl (fun acc r => List.zipWith (· + ·) acc (trailing L r)) (List.replicate L 0)

/-- The portfolio-return computation of `_get_portfolio_returns` from the point
where the per-asset return series are in hand (lines 124-140): weight each
series, align to the minimum length, sum elementwise. -/
def portfolioFromReturns (rs : List (List ℚ)) (ws : List ℚ) : List ℚ :=
  alignAndSum (weightedReturns rs ws)

/-- Model of `risk_calculator._get_portfolio_returns`: for each symbol with non-empty
bar data, build its weighted daily-return series; `None` when no symbol has
data; otherwise align-and-sum.  `data` is the per-symbol list of close prices
returned by the provider, paired with `ws` by index. -/
def getPortfolioReturns (data : List (List ℚ)) (ws : List ℚ) : Option (List ℚ) :=
  let valid := (data.zip ws).filter (fun p => !p.1.isEmpty)
  let rl := valid.map (fun p => (dailyReturns p.1).map (fun r => r * p.2))
  if rl.isEmpty then none else some (alignAndSum rl)

/-! ## Risk Metrics Engine (`risk_calculator.py`) -/

/-- Model of `_calculate_historical_var`: negated `(1-confidence)*100`-percentile of the
returns scaled by `sqrt(time_horizon)`. -/
def calcHistoricalVar (sqrtFn : ℚ → ℚ) (returns : List ℚ) (cl : ℚ) (th : ℕ) : ℚ :=
  -(percentile (returns.map (fun r => r * sqrtFn th)) ((1 - cl) * 100))

/-- Model of `_calculate_parametric_var`: `-(μ·h + z·σ·sqrt(h))` with `z = ppf(1-cl)`. -/
def calcParametricVar (sqrtFn ppf : ℚ → ℚ) (returns : List ℚ) (cl : ℚ) (th : ℕ) : ℚ :=
  let meanReturn := listMean returns
  let stdReturn := sqrtFn (sampleVar returns)
  let scaledMean := meanReturn * th
  let scaledStd := stdReturn * sqrtFn th
  Neg.neg (scaledMean + ppf (1 - cl) * scaledStd)

/-- Model of `_calculate_expected_shortfall`: negated mean of the scaled returns at or
below the VaR percentile threshold; negated threshold if the tail is empty. -/
def calcExpectedShortfall (sqrtFn : ℚ → ℚ) (returns : List ℚ) (cl : ℚ) (th : ℕ) : ℚ :=
  let scaled := returns.map (fun r => r * sqrtFn th)
  let thr := percentile scaled ((1 - cl) * 100)
  let tail := scaled.filter (fun x => decide (x ≤ thr))
  if 0 < tail.length then -(listMean tail) else -thr

/-- Model of `_calculate_volatility`: `std(returns) * sqrt(252)` (`ddof = 1`). -/
def calcVolatility (sqrtFn : ℚ → ℚ) (returns : List ℚ) : ℚ :=
  sqrtFn (sampleVar returns) * sqrtFn 252

/-- Running maximum (`Series.expanding().max()`). -/
def runningMax : List ℚ → List ℚ
  | [] => []
  | x :: xs => xs.scanl max x

/-- Model of `_calculate_max_drawdown`: minimum of `(cum - peak) / peak` over the
cumulative wealth curve `cumprod(1 + r)`. -/
def calcMaxDrawdown (returns : List ℚ) : ℚ :=
  let cumulative := (returns.scanl (fun acc r => acc * (1 + r)) 1).tail
  let peak := runningMax cumulative
  let drawdown := List.zipWith (fun c p => (c - p) / p) cumulative peak
  listMinQ drawdown

/-- Model of `_calculate_sharpe_ratio` with `risk_free_rate = 0.02`. -/
def calcSharpe (sqrtFn : ℚ → ℚ) (returns : List ℚ) : ℚ :=
  let annualReturn := listMean returns * 252
  let annualVol := sqrtFn (sampleVar returns) * sqrtFn 252
  if annualVol = 0 then 0 else (annualReturn - 1 / 50) / annualVol

/-- The six numeric risk metrics reported by `calculate_portfolio_risk`
(`var_metrics` and `portfolio_metrics` entries of the result dict). -/
structure RiskMetrics where
  historical_var : ℚ
  parametric_var : ℚ
  expected_shortfall : ℚ
  volatility : ℚ
  max_drawdown : ℚ
  sharpe_ratio : ℚ
deriving DecidableEq

/-- Model of `_get_default_risk_metrics`: the documented fallback constants. -/
def defaultRiskMetrics : RiskMetrics :=
  { historical_var := 1 / 20
    parametric_var := 1 / 20
    expected_shortfall := 7 / 100
    volatility := 1 / 5
    max_drawdown := -(3 / 20)
    sharpe_ratio := 1 / 2 }

/-- The metrics computed on a successfully built portfolio return series
(lines 58-66 of `risk_calculator.py`). -/
def computeRiskMetrics (sqrtFn ppf : ℚ → ℚ) (pr : List ℚ) (cl : ℚ) (th : ℕ) : RiskMetrics :=
  { historical_var := calcHistoricalVar sqrtFn pr cl th
    parametric_var := calcParametricVar sqrtFn ppf pr cl th
    expected_shortfall := calcExpectedShortfall sqrtFn pr cl th
    volatility := calcVolatility sqrtFn pr
    max_drawdown := calcMaxDrawdown pr
    sharpe_ratio := calcSharpe sqrtFn pr }

/-- Lines 50-96 of `calculate_portfolio_risk` after weight validation: build
the portfolio returns; `None` or an empty series yields the defaults,
otherwise compute the metrics. -/
def riskWithWeights (sqrtFn ppf : ℚ → ℚ) (data : List (List ℚ)) (ws : List ℚ)
    (cl : ℚ) (th : ℕ) : RiskMetrics :=
  match getPortfolioReturns data ws with
  | none => defaultRiskMetrics
  | some pr => if pr.isEmpty then defaultRiskMetrics else computeRiskMetrics sqrtFn ppf pr cl th

/-- The body of `calculate_portfolio_risk` inside its `try` (lines 42-96):
a length mismatch raises `ValueError`; a weight sum far from 1 triggers
renormalization `w / sum(weights)`, which raises `ZeroDivisionError` when the
sum is zero and the list non-empty (a comprehension over `[]` divides by
nothing). -/
def calcRiskBody (sqrtFn ppf : ℚ → ℚ) (data : List (List ℚ)) (ws : List ℚ)
    (cl : ℚ) (th : ℕ) : Except CalcError RiskMetrics :=
  if data.length ≠ ws.length then .error .valueError
  else if |ws.sum - 1| > 1 / 1000000 then
    if ws.sum = 0 ∧ ws ≠ [] then .error .zeroDivisionError
    else .ok (riskWithWeights sqrtFn ppf data (ws.map (fun w => w / ws.sum)) cl th)
  else .ok (riskWithWeights sqrtFn ppf data ws cl th)

/-- Model of `calculate_portfolio_risk`: the blanket `except` (lines 98-100) converts
any raised exception into the default metrics, so the function always returns
a `RiskMetrics` value. -/
def calculatePortfolioRisk (sqrtFn ppf : ℚ → ℚ) (data : List (List ℚ)) (ws : List ℚ)
    (cl : ℚ) (th : ℕ) : RiskMetrics :=
  match calcRiskBody sqrtFn ppf data ws cl th with
  | .ok m => m
  | .error _ => defaultRiskMetrics

/-! ## Monte Carlo Simulator (`monte_carlo.py`) -/

/-- Model of `_calculate_mc_var`: negated `(1-confidence)*100`-percentile of the sample. -/
def mcVar (sample : List ℚ) (cl : ℚ) : ℚ := -(percentile sample ((1 - cl) * 100))

/-- Model of `_calculate_mc_expected_shortfall`: negated mean of the sample values at or
below the VaR percentile threshold; negated threshold if the tail is empty. -/
def mcES (sample : List ℚ) (cl : ℚ) : ℚ :=
  let thr := percentile sample ((1 - cl) * 100)
  let tail := sample.filter (fun x => decide (x ≤ thr))
  if 0 < tail.length then -(listMean tail) else -thr

/-- The numeric content of the dict returned by `run_simulation`. -/
structure SimResult where
  portfolio_returns : List ℚ
  final_values : List ℚ
  mean_return : ℚ
  std_return : ℚ
  probability_of_loss : ℚ
  var_95 : ℚ
  var_99 : ℚ
  es_95 : ℚ
  es_99 : ℚ
  percentiles : List ℚ
deriving DecidableEq

/-- Model of `run_simulation` after the draw: the sampled returns (`np.random.normal`
output, here an explicit parameter `sample` whose length is `num_simulations`)
drive all statistics; the two raw lists are truncated by `[:1000]`. -/
def runSimulation (sqrtFn : ℚ → ℚ) (sample : List ℚ) (initialValue : ℚ) : SimResult :=
  let finalValues := sample.map (fun r => initialValue * (1 + r))
  { portfolio_returns := sample.take 1000
    final_values := finalValues.take 1000
    mean_return := listMean sample
    std_return := sqrtFn (popVar sample)
    probability_of_loss := ((sample.filter (fun x => decide (x < 0))).length : ℚ) / (sample.length : ℚ)
    var_95 := mcVar sample (95 / 100)
    var_99 := mcVar sample (99 / 100)
    es_95 := mcES sample (95 / 100)
    es_99 := mcES sample (99 / 100)
    percentiles := ([1, 5, 25, 50, 75, 95, 99] : List ℚ).map (percentile sample) }

/-! ## Allocation Optimizer (`portfolio_manager.py`) -/

/-- Model of `_equal_weight_optimization`: `[1.0 / len(symbols)] * len(symbols)`, which
raises `ZeroDivisionError` when the symbol list is empty. -/
def equalWeightOptimization (symbols : List String) : Except CalcError (List ℚ) :=
  if symbols.length = 0 then .error .zeroDivisionError
  else .ok (List.replicate symbols.length (1 / (symbols.length : ℚ)))

/-- Line 113 of `portfolio_manager.py`: each negative Sharpe proxy `s` becomes
`max(0.01, s + abs(min(proxies)) + 0.1)`; each non-negative one becomes
`max(0.01, s)`. -/
def adjustedSharpes (ss : List ℚ) : List ℚ :=
  ss.map (fun s => if s < 0 then max (1 / 100) (s + |listMinQ ss| + 1 / 10) else max (1 / 100) s)

/-- Lines 112-124 of `_simple_max_sharpe` (the part after the per-asset Sharpe
proxies are computed): normalize the adjusted proxies when their total is
positive, otherwise fall back to equal weights (which raises on an empty
symbol list). -/
def maxSharpeBody (symbols : List String) (proxies : List ℚ) : Except CalcError (List ℚ) :=
  let adj := adjustedSharpes proxies
  if 0 < adj.sum then .ok (adj.map (fun s => s / adj.sum))
  else equalWeightOptimization symbols

/-- Model of `_simple_max_sharpe` with its own `try/except`: on any internal exception it
returns `_equal_weight_optimization(symbols)` (which can itself raise). -/
def simpleMaxSharpe (symbols : List String) (proxies : List ℚ) : Except CalcError (List ℚ) :=
  match maxSharpeBody symbols proxies with
  | .ok w => .ok w
  | .error _ => equalWeightOptimization symbols

/-- The weighting rule C7 attributes to `_simple_max_sharpe`, written from the
spec's words: shift only the negative proxies by `abs(min(proxies)) + 0.1`,
normalize the shifted proxies to sum to 1, and fall back to equal weights when
their total is 0.  (For comparison with `maxSharpeBody`, the rule the code
implements.) -/
def specMaxSharpeWeights (ss : List ℚ) : List ℚ :=
  let shifted := ss.map (fun s => if s < 0 then s + |listMinQ ss| + 1 / 10 else s)
  if shifted.sum = 0 then List.replicate ss.length (1 / (ss.length : ℚ))
  else shifted.map (fun s => s / shifted.sum)

/-- Lines 167-170 of `_simple_min_variance`: inverse-volatility weights with a
`max(0.001, vol)` floor. -/
def minVarianceWeights (vols : List ℚ) : List ℚ :=
  let invVol := vols.map (fun v => 1 / max (1 / 1000) v)
  invVol.map (fun iv => iv / invVol.sum)

/-- The parts of the dict returned by `optimize_portfolio` that the claims
mention. -/
structure OptResult where
  optimized_weights : List (String × ℚ)
  method : String
deriving DecidableEq

/-- Model of `_get_default_optimization`: builds the default result around
`_equal_weight_optimization(symbols)` — so it re-raises on an empty list. -/
def getDefaultOptimization (symbols : List String) : Except CalcError OptResult :=
  match equalWeightOptimization symbols with
  | .ok ws => .ok { optimized_weights := symbols.zip ws, method := "equal_weight" }
  | .error e => .error e

/-- Lines 42-44 of `optimize_portfolio`: missing, empty or length-mismatched
`current_weights` are replaced by `[1.0 / len(symbols)] * len(symbols)`. -/
def currentWeightsUsed (symbols : List String) (cw : Option (List ℚ)) : Except CalcError (List ℚ) :=
  match cw with
  | some w => if w ≠ [] ∧ w.length = symbols.length then .ok w else equalWeightOptimization symbols
  | none => equalWeightOptimization symbols

/-- The body of `optimize_portfolio` inside its `try` (lines 25-58): pick the
weighting method (`per-asset proxies/volatilities are the data-dependent
inputs), then resolve the current weights, then assemble the result. -/
def optBody (symbols : List String) (method : String) (proxies vols : List ℚ)
    (cw : Option (List ℚ)) : Except CalcError OptResult :=
  match (if method = "equal_weight" then equalWeightOptimization symbols
      else if method = "max_sharpe" then simpleMaxSharpe symbols proxies
      else if method = "min_variance" then Except.ok (minVarianceWeights vols)
      else equalWeightOptimization symbols) with
  | .error e => .error e
  | .ok ws =>
    match currentWeightsUsed symbols cw with
    | .error e => .error e
    | .ok _ => .ok { optimized_weights := symbols.zip ws, method := method }

/-- Model of `optimize_portfolio`: the `except` handler (lines 60-62) answers with
`_get_default_optimization`, which can itself raise — that error propagates to
the caller. -/
def optimizePortfolio (symbols : List String) (method : String) (proxies vols : List ℚ)
    (cw : Option (List ℚ)) : Except CalcError OptResult :=
  match optBody symbols method proxies vols cw with
  | .ok r => .ok r
  | .error _ => getDefaultOptimization symbols

example : percentile [3, 1, 2] 50 = 2 := by
  norm_num [percentile, List.insertionSort, List.orderedInsert]
example : percentile [1, 2, 3, 4] 25 = 7 / 4 := by
  norm_num [percentile, List.insertionSort, List.orderedInsert]
example : percentile [5] 95 = 5 := by
  norm_num [percentile, List.insertionSort, List.orderedInsert]
example : dailyReturns [100, 110, 99] = [1 / 10, -(1 / 10)] := by
  norm_num [dailyReturns]
example : portfolioFromReturns [[1, 2, 3], [4, 5]] [1, 1] = [6, 8] := by
  norm_num [portfolioFromReturns, alignAndSum, weightedReturns, minLen, trailing,
    List.zipWith, List.replicate]
example : getPortfolioReturns [[], []] [1 / 2, 1 / 2] = none := by
  norm_num [getPortfolioReturns]

/-! ## Shared helper lemmas -/

theorem getPortfolioReturns_eq_none (data : List (List ℚ)) (ws : List ℚ)
    (hempty : ∀ d ∈ data, d = []) : getPortfolioReturns data ws = none := by
  unfold getPortfolioReturns
  have hfil : (data.zip ws).filter (fun p => !p.1.isEmpty) = [] := by
    rw [List.filter_eq_nil_iff]
    rintro ⟨a, b⟩ hp
    have ha : a ∈ data := (List.of_mem_zip hp).1
    simp [hempty a ha]
  simp [hfil]

theorem riskWithWeights_of_none (sqrtFn ppf : ℚ → ℚ) (data : List (List ℚ)) (ws : List ℚ)
    (cl : ℚ) (th : ℕ) (h : getPortfolioReturns data ws = none) :
    riskWithWeights sqrtFn ppf data ws cl th = defaultRiskMetrics := by
  unfold riskWithWeights
  rw [h]

/-! ## Claim theorems -/

/-- C2: for a non-empty return series, confidence level in (0,1) and positive
horizon, `_calculate_historical_var` returns the negation of the
`(1 - confidence_level) * 100`-th percentile of the sqrt-horizon-scaled
series, and is positive whenever that percentile is negative. -/
theorem c2_historical_var (sqrtFn : ℚ → ℚ) (returns : List ℚ) (cl : ℚ) (th : ℕ)
    (hne : returns ≠ []) (h0 : 0 < cl) (h1 : cl < 1) (hth : 1 ≤ th) :
    calcHistoricalVar sqrtFn returns cl th
      = -(percentile (returns.map (fun r => r * sqrtFn th)) ((1 - cl) * 100))
    ∧ (percentile (returns.map (fun r => r * sqrtFn th)) ((1 - cl) * 100) < 0 →
        0 < calcHistoricalVar sqrtFn returns cl th) :=
  ⟨rfl, fun h => neg_pos.mpr h⟩

theorem c2_witness :
    calcHistoricalVar id [1 / 10, -(1 / 10)] (95 / 100) 1
      = -(percentile (([1 / 10, -(1 / 10)] : List ℚ).map (fun r => r * id ((1 : ℕ) : ℚ)))
          ((1 - 95 / 100) * 100))
    ∧ (percentile (([1 / 10, -(1 / 10)] : List ℚ).map (fun r => r * id ((1 : ℕ) : ℚ)))
          ((1 - 95 / 100) * 100) < 0 →
        0 < calcHistoricalVar id [1 / 10, -(1 / 10)] (95 / 100) 1) :=
  c2_historical_var id [1 / 10, -(1 / 10)] (95 / 100) 1 (by decide) (by norm_num)
    (by norm_num) (le_refl 1)

/-- C3: when the price provider returns empty bar data for every symbol,
`calculate_portfolio_risk` returns exactly the documented fallback metrics
(0.05, 0.05, 0.07, 0.20, -0.15, 0.5). -/
theorem c3_empty_data_defaults (sqrtFn ppf : ℚ → ℚ) (data : List (List ℚ)) (ws : List ℚ)
    (cl : ℚ) (th : ℕ) (hempty : ∀ d ∈ data, d = []) :
    calculatePortfolioRisk sqrtFn ppf data ws cl th = defaultRiskMetrics := by
  have hrw : ∀ ws', riskWithWeights sqrtFn ppf data ws' cl th = defaultRiskMetrics :=
    fun ws' => riskWithWeights_of_none sqrtFn ppf data ws' cl th
      (getPortfolioReturns_eq_none data ws' hempty)
  unfold calculatePortfolioRisk calcRiskBody
  split_ifs <;> simp [hrw]

theorem c3_witness :
    calculatePortfolioRisk id id [[], []] [1 / 2, 1 / 2] (95 / 100) 1 = defaultRiskMetrics :=
  c3_empty_data_defaults id id [[], []] [1 / 2, 1 / 2] (95 / 100) 1 (by simp)

/-- C6: `run_simulation` derives every statistic (mean, std, probability of
loss, VaR, ES, percentile table) from the full sample, while the
`portfolio_returns` and `final_values` lists keep exactly the first 1000
elements of the sample and of `initial_value * (1 + sample)`. -/
theorem c6_simulation_truncation (sqrtFn : ℚ → ℚ) (sample : List ℚ) (v0 : ℚ)
    (hlen : 1000 ≤ sample.length) (hv : 0 < v0) :
    (runSimulation sqrtFn sample v0).portfolio_returns = sample.take 1000
    ∧ (runSimulation sqrtFn sample v0).portfolio_returns.length = 1000
    ∧ (runSimulation sqrtFn sample v0).final_values
        = (sample.map (fun r => v0 * (1 + r))).take 1000
    ∧ (runSimulation sqrtFn sample v0).final_values.length = 1000
    ∧ (runSimulation sqrtFn sample v0).mean_return = sample.sum / (sample.length : ℚ)
    ∧ (runSimulation sqrtFn sample v0).std_return = sqrtFn (popVar sample)
    ∧ (runSimulation sqrtFn sample v0).probability_of_loss
        = ((sample.filter (fun x => decide (x < 0))).length : ℚ) / (sample.length : ℚ)
    ∧ (runSimulation sqrtFn sample v0).var_95 = -(percentile sample 5)
    ∧ (runSimulation sqrtFn sample v0).var_99 = -(percentile sample 1)
    ∧ (runSimulation sqrtFn sample v0).es_95 = mcES sample (95 / 100)
    ∧ (runSimulation sqrtFn sample v0).es_99 = mcES sample (99 / 100)
    ∧ (runSimulation sqrtFn sample v0).percentiles
        = ([1, 5, 25, 50, 75, 95, 99] : List ℚ).map (percentile sample) := by
  refine ⟨rfl, ?_, rfl, ?_, rfl, rfl, rfl, ?_, ?_, rfl, rfl, rfl⟩
  · simp [runSimulation, List.length_take, Nat.min_eq_left hlen]
  · simp [runSimulation, List.length_take, Nat.min_eq_left hlen]
  · show mcVar sample (95 / 100) = _
    norm_num [mcVar]
  · show mcVar sample (99 / 100) = _
    norm_num [mcVar]

theorem c6_witness :
    (runSimulation id (List.replicate 1000 (1 / 100)) 100000).portfolio_returns.length = 1000
    ∧ (runSimulation id (List.replicate 1000 (1 / 100)) 100000).final_values.length = 1000 :=
  ⟨(c6_simulation_truncation id (List.replicate 1000 (1 / 100)) 100000
      (by rw [List.length_replicate]) (by norm_num)).2.1,
    (c6_simulation_truncation id (List.replicate 1000 (1 / 100)) 100000
      (by rw [List.length_replicate]) (by norm_num)).2.2.2.1⟩

/-- C9 (amended): a symbols/weights length mismatch raises a `ValueError`
inside `calculate_portfolio_risk`, but the function's own blanket `except`
catches it and returns the default metrics — the error does not escape the
function's boundary, and no exception escapes for any other input either. -/
theorem c9_mismatch_caught (sqrtFn ppf : ℚ → ℚ) (data : List (List ℚ)) (ws : List ℚ)
    (cl : ℚ) (th : ℕ) (h : data.length ≠ ws.length) :
    calcRiskBody sqrtFn ppf data ws cl th = .error .valueError
    ∧ calculatePortfolioRisk sqrtFn ppf data ws cl th = defaultRiskMetrics := by
  have h1 : calcRiskBody sqrtFn ppf data ws cl th = .error .valueError := by
    unfold calcRiskBody
    rw [if_pos h]
  refine ⟨h1, ?_⟩
  unfold calculatePortfolioRisk
  rw [h1]

/-- C9 counterexample: at a concrete mismatched input (two symbols, one
weight) the `ValueError` is raised internally and caught, and the call
returns the default metrics instead of raising past its boundary. -/
theorem c9_counterexample :
    calcRiskBody (fun q => q) (fun q => q) [[1], [2]] [1] (95 / 100) 1 = .error .valueError
    ∧ calculatePortfolioRisk (fun q => q) (fun q => q) [[1], [2]] [1] (95 / 100) 1
        = defaultRiskMetrics :=
  ⟨rfl, rfl⟩

theorem c9_witness :
    calcRiskBody (fun q => q) (fun q => q) [[1]] [1 / 2, 1 / 2] (95 / 100) 1
        = .error .valueError
    ∧ calculatePortfolioRisk (fun q => q) (fun q => q) [[1]] [1 / 2, 1 / 2] (95 / 100) 1
        = defaultRiskMetrics :=
  c9_mismatch_caught _ _ _ _ _ _ (by decide)

theorem sum_map_div (l : List ℚ) (s : ℚ) : (l.map (fun w => w / s)).sum = l.sum / s := by
  induction l with
  | nil => simp
  | cons x xs ih => simp [ih, add_div]

theorem foldl_min_le_init (l : List ℚ) (a : ℚ) : l.foldl min a ≤ a := by
  induction l generalizing a with
  | nil => simp
  | cons x xs ih => exact le_trans (ih (min a x)) (min_le_left a x)

theorem foldl_min_le_mem (l : List ℚ) (x : ℚ) (hx : x ∈ l) : ∀ a, l.foldl min a ≤ x := by
  induction l with
  | nil => cases hx
  | cons y ys ih =>
    intro a
    rcases List.mem_cons.mp hx with h | h
    · subst h
      exact le_trans (foldl_min_le_init ys (min a x)) (min_le_right a x)
    · exact ih h (min a y)

theorem listMinQ_le (ss : List ℚ) (s : ℚ) (hs : s ∈ ss) : listMinQ ss ≤ s := by
  cases ss with
  | nil => cases hs
  | cons x xs =>
    rcases List.mem_cons.mp hs with h | h
    · subst h
      exact foldl_min_le_init xs s
    · exact foldl_min_le_mem xs s h x

/-- C4: a weight vector whose sum `s` deviates from 1 by more than `1e-6` (and
is nonzero) is replaced elementwise by `w / s` before the portfolio return
series is computed, and the weights actually used then sum to 1; a vector
within tolerance is used unchanged. -/
theorem c4_weight_normalization (sqrtFn ppf : ℚ → ℚ) (data : List (List ℚ)) (ws : List ℚ)
    (cl : ℚ) (th : ℕ) (hlen : data.length = ws.length) :
    ((|ws.sum - 1| > 1 / 1000000) → ws.sum ≠ 0 →
      calculatePortfolioRisk sqrtFn ppf data ws cl th
        = riskWithWeights sqrtFn ppf data (ws.map (fun w => w / ws.sum)) cl th
      ∧ (ws.map (fun w => w / ws.sum)).sum = 1)
    ∧ ((|ws.sum - 1| ≤ 1 / 1000000) →
      calculatePortfolioRisk sqrtFn ppf data ws cl th
        = riskWithWeights sqrtFn ppf data ws cl th) := by
  have hnot : ¬(data.length ≠ ws.length) := fun h => h hlen
  constructor
  · intro habs hs
    refine ⟨?_, ?_⟩
    · unfold calculatePortfolioRisk calcRiskBody
      rw [if_neg hnot, if_pos habs, if_neg (by rintro ⟨h0, -⟩; exact hs h0)]
    · rw [sum_map_div, div_self hs]
  · intro habs
    unfold calculatePortfolioRisk calcRiskBody
    rw [if_neg hnot, if_neg (not_lt.mpr habs)]

theorem c4_witness :
    (calculatePortfolioRisk id id [[1], [2], [3]] [1 / 2, 1 / 2, 1 / 2] (95 / 100) 1
      = riskWithWeights id id [[1], [2], [3]]
          (([1 / 2, 1 / 2, 1 / 2] : List ℚ).map
            (fun w => w / ([1 / 2, 1 / 2, 1 / 2] : List ℚ).sum)) (95 / 100) 1
      ∧ (([1 / 2, 1 / 2, 1 / 2] : List ℚ).map
          (fun w => w / ([1 / 2, 1 / 2, 1 / 2] : List ℚ).sum)).sum = 1)
    ∧ (calculatePortfolioRisk id id [[4], [5]] [1 / 2, 1 / 2] (95 / 100) 1
        = riskWithWeights id id [[4], [5]] [1 / 2, 1 / 2] (95 / 100) 1) :=
  ⟨(c4_weight_normalization id id [[1], [2], [3]] [1 / 2, 1 / 2, 1 / 2] (95 / 100) 1 rfl).1
      (by norm_num [abs, max_def]) (by norm_num),
    (c4_weight_normalization id id [[4], [5]] [1 / 2, 1 / 2] (95 / 100) 1 rfl).2 (by norm_num)⟩

/-- C7 (amended): for a non-empty proxy list, line 113 maps a negative proxy
`s` to exactly `s + abs(min(proxies)) + 0.1` (the `max(0.01, ·)` clamp is
inactive there because that shift is at least 0.1), but it also clamps every
non-negative proxy to `max(0.01, s)`; every adjusted proxy is therefore at
least 0.01, the total is strictly positive, the equal-weight fallback branch
is never taken, and the weights are the adjusted proxies normalized by their
sum. -/
theorem c7_adjusted_sharpe (symbols : List String) (ss : List ℚ) (hne : ss ≠ []) :
    adjustedSharpes ss
      = ss.map (fun s => if s < 0 then s + |listMinQ ss| + 1 / 10 else max (1 / 100) s)
    ∧ 0 < (adjustedSharpes ss).sum
    ∧ maxSharpeBody symbols ss
        = .ok ((adjustedSharpes ss).map (fun s => s / (adjustedSharpes ss).sum))
    ∧ simpleMaxSharpe symbols ss
        = .ok ((adjustedSharpes ss).map (fun s => s / (adjustedSharpes ss).sum)) := by
  have hshift : ∀ s ∈ ss, s < 0 → 1 / 10 ≤ s + |listMinQ ss| + 1 / 10 := by
    intro s hs hneg
    have hmin := listMinQ_le ss s hs
    have hminneg : listMinQ ss < 0 := lt_of_le_of_lt hmin hneg
    rw [abs_of_neg hminneg]
    linarith
  have hadj : adjustedSharpes ss
      = ss.map (fun s => if s < 0 then s + |listMinQ ss| + 1 / 10 else max (1 / 100) s) := by
    unfold adjustedSharpes
    apply List.map_congr_left
    intro s hs
    by_cases hneg : s < 0
    · simp only [if_pos hneg]
      exact max_eq_right (le_trans (by norm_num) (hshift s hs hneg))
    · simp only [if_neg hneg]
  have hlb : ∀ x ∈ adjustedSharpes ss, (1 : ℚ) / 100 ≤ x := by
    intro x hx
    unfold adjustedSharpes at hx
    obtain ⟨s, hs, rfl⟩ := List.mem_map.mp hx
    by_cases hneg : s < 0
    · simp only [if_pos hneg]
      exact le_max_left ..
    · simp only [if_neg hneg]
      exact le_max_left ..
  have hlenq : (0 : ℚ) < ((adjustedSharpes ss).length : ℚ) := by
    have h1 : 0 < ss.length := List.length_pos.mpr hne
    have h2 : (adjustedSharpes ss).length = ss.length := List.length_map ..
    rw [h2]
    exact_mod_cast h1
  have hsum : 0 < (adjustedSharpes ss).sum := by
    have h1 := List.card_nsmul_le_sum (adjustedSharpes ss) ((1 : ℚ) / 100) hlb
    rw [nsmul_eq_mul] at h1
    have h2 : (0 : ℚ) < ((adjustedSharpes ss).length : ℚ) * (1 / 100) := by
      apply mul_pos hlenq
      norm_num
    linarith
  have hbody : maxSharpeBody symbols ss
      = .ok ((adjustedSharpes ss).map (fun s => s / (adjustedSharpes ss).sum)) := by
    unfold maxSharpeBody
    rw [if_pos hsum]
  refine ⟨hadj, hsum, hbody, ?_⟩
  unfold simpleMaxSharpe
  rw [hbody]

/-- C7 counterexample: with proxies `[0, 0.5]` (no negatives, so the claim
says the proxies are normalized as-is to `[0, 1]`), the code clamps the zero
proxy to 0.01 and returns `[1/51, 50/51]`, a different weight vector — the
claim's shift-only rule does not match the code. -/
theorem c7_counterexample :
    maxSharpeBody ["A", "B"] [0, 1 / 2] = .ok [1 / 51, 50 / 51]
    ∧ specMaxSharpeWeights [0, 1 / 2] = [0, 1]
    ∧ ([1 / 51, 50 / 51] : List ℚ) ≠ [0, 1] := by
  refine ⟨?_, ?_, ?_⟩
  · norm_num [maxSharpeBody, adjustedSharpes, listMinQ, max_def]
  · norm_num [specMaxSharpeWeights, listMinQ]
  · norm_num

theorem c7_witness :
    simpleMaxSharpe ["A"] [-(1 : ℚ) / 2]
      = .ok ((adjustedSharpes [-(1 : ℚ) / 2]).map
          (fun s => s / (adjustedSharpes [-(1 : ℚ) / 2]).sum)) :=
  (c7_adjusted_sharpe ["A"] [-(1 : ℚ) / 2] (by decide)).2.2.2

/-- C8 (amended): the optimizer path (`_simple_max_sharpe` lines 86-90)
filters its per-asset return series with `np.isfinite`, so every retained
value is finite; but the risk-calculation path
(`risk_calculator._get_portfolio_returns` lines 120-126) applies no such
filter — its return series keeps one entry per consecutive close pair
(length `len(closes) - 1`) even when an entry is non-finite. -/
theorem c8_finite_filtering (closes : List ℚ) :
    (maxSharpeReturns closes).all FloatVal.isFinite = true
    ∧ maxSharpeReturns closes = (dailyReturnsF closes).filter FloatVal.isFinite
    ∧ (dailyReturnsF closes).length = closes.length - 1 := by
  refine ⟨?_, rfl, ?_⟩
  · rw [List.all_eq_true]
    intro v hv
    exact List.of_mem_filter hv
  · unfold dailyReturnsF
    rw [List.length_map, List.length_zip, List.length_tail]
    omega

/-- C8 counterexample: a zero close price (`closes = [1, 0, 2]`) makes the
second return non-finite; the risk-calculation path keeps it (its series is
`[fin (-1), nonfin]`), so the series used downstream is not all-finite —
only the optimizer path drops it. -/
theorem c8_counterexample :
    dailyReturnsF [1, 0, 2] = [.fin (-1), .nonfin]
    ∧ FloatVal.nonfin ∈ dailyReturnsF [1, 0, 2]
    ∧ maxSharpeReturns [1, 0, 2] = [.fin (-1)] := by
  have h1 : dailyReturnsF [1, 0, 2] = [.fin (-1), .nonfin] := by
    norm_num [dailyReturnsF, divF]
  refine ⟨h1, ?_, ?_⟩
  · rw [h1]
    simp
  · unfold maxSharpeReturns
    rw [h1]
    simp [FloatVal.isFinite]

/-- C10: `optimize_portfolio` on the empty asset list raises
`ZeroDivisionError` — the equal-weight computation divides by
`len(symbols) = 0` and the exception handler's default path re-invokes the
same division — while for every non-empty list the equal-weight method
returns weight `1/N` per asset. -/
theorem c10_empty_portfolio :
    (∀ (method : String) (proxies vols : List ℚ) (cw : Option (List ℚ)),
        optimizePortfolio [] method proxies vols cw = .error .zeroDivisionError)
    ∧ ∀ (symbols : List String), symbols ≠ [] →
        equalWeightOptimization symbols
          = .ok (List.replicate symbols.length (1 / (symbols.length : ℚ))) := by
  constructor
  · intro method proxies vols cw
    have hcur : currentWeightsUsed ([] : List String) cw = .error .zeroDivisionError := by
      cases cw with
      | none => rfl
      | some w =>
        show (if w ≠ [] ∧ w.length = ([] : List String).length then Except.ok w
            else equalWeightOptimization []) = Except.error CalcError.zeroDivisionError
        rw [if_neg]
        · rfl
        · rintro ⟨hw, hlen2⟩
          exact hw (List.length_eq_zero.mp hlen2)
    unfold optimizePortfolio optBody
    cases hws : (if method = "equal_weight" then equalWeightOptimization []
        else if method = "max_sharpe" then simpleMaxSharpe [] proxies
        else if method = "min_variance" then Except.ok (minVarianceWeights vols)
        else equalWeightOptimization []) with
    | error e =>
      rfl
    | ok ws =>
      rw [hcur]
      rfl
  · intro symbols hne
    unfold equalWeightOptimization
    rw [if_neg (fun h => hne (List.length_eq_zero.mp h))]

theorem c10_witness :
    optimizePortfolio [] "equal_weight" [] [] none = .error .zeroDivisionError
    ∧ equalWeightOptimization ["AAPL"]
        = .ok (List.replicate (["AAPL"] : List String).length
            (1 / ((["AAPL"] : List String).length : ℚ))) :=
  ⟨c10_empty_portfolio.1 "equal_weight" [] [] none,
    c10_empty_portfolio.2 ["AAPL"] (by decide)⟩

/-- C5: Expected Shortfall dominates Historical VaR at the same confidence
level and horizon — the tail mean is at most the percentile threshold, so its
negation is at least the negated threshold. -/
theorem c5_es_ge_var (sqrtFn : ℚ → ℚ) (returns : List ℚ) (cl : ℚ) (th : ℕ)
    (hne : returns ≠ []) (h0 : 0 < cl) (h1 : cl < 1) (hth : 1 ≤ th) :
    calcHistoricalVar sqrtFn returns cl th ≤ calcExpectedShortfall sqrtFn returns cl th := by
  simp only [calcHistoricalVar, calcExpectedShortfall]
  set scaled := returns.map (fun r => r * sqrtFn th) with hscaled
  set thr := percentile scaled ((1 - cl) * 100) with hthr
  set tail := scaled.filter (fun x => decide (x ≤ thr)) with htail
  by_cases hlen : 0 < tail.length
  · rw [if_pos hlen]
    have hmem : ∀ x ∈ tail, x ≤ thr := by
      intro x hx
      rw [htail] at hx
      simpa using List.of_mem_filter hx
    have hsum : tail.sum ≤ (tail.length : ℚ) * thr := by
      have h2 := List.sum_le_card_nsmul tail thr hmem
      rwa [nsmul_eq_mul] at h2
    have hmean : listMean tail ≤ thr := by
      unfold listMean
      rw [div_le_iff₀ (by exact_mod_cast hlen)]
      exact le_of_le_of_eq hsum (mul_comm ..)
    exact neg_le_neg hmean
  · rw [if_neg hlen]

theorem c5_witness :
    calcHistoricalVar id [1 / 10, -(1 / 10), 1 / 50] (95 / 100) 1
      ≤ calcExpectedShortfall id [1 / 10, -(1 / 10), 1 / 50] (95 / 100) 1 :=
  c5_es_ge_var id [1 / 10, -(1 / 10), 1 / 50] (95 / 100) 1 (by decide) (by norm_num)
    (by norm_num) (le_refl 1)

theorem trailing_length (L : ℕ) (xs : List ℚ) (h : L ≤ xs.length) :
    (trailing L xs).length = L := by
  unfold trailing
  rw [List.length_drop]
  omega

theorem foldl_minLen_le_init (rs : List (List ℚ)) :
    ∀ a : ℕ, rs.foldl (fun m s => min m s.length) a ≤ a := by
  induction rs with
  | nil => intro a; simp
  | cons x xs ih =>
    intro a
    exact le_trans (ih (min a x.length)) (min_le_left ..)

theorem foldl_minLen_le_mem (rs : List (List ℚ)) (s : List ℚ) (hs : s ∈ rs) :
    ∀ a : ℕ, rs.foldl (fun m s => min m s.length) a ≤ s.length := by
  induction rs with
  | nil => cases hs
  | cons x xs ih =>
    intro a
    rcases List.mem_cons.mp hs with h | h
    · subst h
      exact le_trans (foldl_minLen_le_init xs (min a s.length)) (min_le_right ..)
    · exact ih h (min a x.length)

theorem minLen_le (rl : List (List ℚ)) (r : List ℚ) (hr : r ∈ rl) : minLen rl ≤ r.length := by
  cases rl with
  | nil => cases hr
  | cons x xs =>
    rcases List.mem_cons.mp hr with h | h
    · subst h
      exact foldl_minLen_le_init xs r.length
    · exact foldl_minLen_le_mem xs r h x.length

theorem minLen_map_lengths (rl : List (List ℚ)) :
    minLen rl = (match rl.map List.length with
      | [] => 0
      | n :: ns => ns.foldl min n) := by
  cases rl with
  | nil => rfl
  | cons x xs =>
    show xs.foldl (fun m s => min m s.length) x.length
      = (xs.map List.length).foldl min x.length
    exact (List.foldl_map ..).symm

theorem minLen_eq_of_map_length (rl₁ rl₂ : List (List ℚ))
    (h : rl₁.map List.length = rl₂.map List.length) : minLen rl₁ = minLen rl₂ := by
  rw [minLen_map_lengths, minLen_map_lengths, h]

theorem weightedReturns_map_length (rs : List (List ℚ)) (ws : List ℚ)
    (hlen : rs.length = ws.length) :
    (weightedReturns rs ws).map List.length = rs.map List.length := by
  unfold weightedReturns
  rw [List.map_map]
  have h1 : (List.length ∘ fun p : List ℚ × ℚ => p.1.map (fun r => r * p.2))
      = (List.length ∘ Prod.fst : List ℚ × ℚ → ℕ) := by
    funext p
    simp
  rw [h1, ← List.map_map, List.map_fst_zip _ _ (le_of_eq hlen)]

theorem alignFold_length (L : ℕ) (rl : List (List ℚ)) :
    ∀ acc : List ℚ, acc.length = L → (∀ r ∈ rl, L ≤ r.length) →
      (rl.foldl (fun acc r => List.zipWith (· + ·) acc (trailing L r)) acc).length = L := by
  induction rl with
  | nil =>
    intro acc hacc _
    simpa using hacc
  | cons r rest ih =>
    intro acc hacc hall
    rw [List.foldl_cons]
    apply ih
    · rw [List.length_zipWith, hacc, trailing_length L r (hall r (List.mem_cons_self ..)),
        min_self]
    · exact fun s hs => hall s (List.mem_cons_of_mem _ hs)

theorem alignFold_getD (L : ℕ) (t : ℕ) (ht : t < L) (rl : List (List ℚ)) :
    ∀ acc : List ℚ, acc.length = L → (∀ r ∈ rl, L ≤ r.length) →
      (rl.foldl (fun acc r => List.zipWith (· + ·) acc (trailing L r)) acc).getD t 0
        = acc.getD t 0 + (rl.map (fun r => (trailing L r).getD t 0)).sum := by
  induction rl with
  | nil =>
    intro acc _ _
    simp
  | cons r rest ih =>
    intro acc hacc hall
    have hLr : L ≤ r.length := hall r (List.mem_cons_self ..)
    have hzlen : (List.zipWith (· + ·) acc (trailing L r)).length = L := by
      rw [List.length_zipWith, hacc, trailing_length L r hLr, min_self]
    rw [List.foldl_cons, List.map_cons, List.sum_cons,
      ih (List.zipWith (· + ·) acc (trailing L r)) hzlen
        (fun s hs => hall s (List.mem_cons_of_mem _ hs))]
    have hacc' : t < acc.length := by omega
    have htr : t < (trailing L r).length := by
      rw [trailing_length L r hLr]
      exact ht
    have hzip : t < (List.zipWith (· + ·) acc (trailing L r)).length := by omega
    rw [List.getD_eq_getElem _ _ hzip, List.getElem_zipWith,
      List.getD_eq_getElem _ _ hacc', List.getD_eq_getElem _ _ htr]
    ring

/-- C1: for per-asset return series with an equal-length weight list, the
portfolio series built by `_get_portfolio_returns` has length
`L = min(len(series))` and its t-th element is the sum over assets of
`weight_i` times the t-th element of the trailing-`L` suffix of asset i's
series (trailing alignment, not calendar alignment). -/
theorem c1_portfolio_alignment (rs : List (List ℚ)) (ws : List ℚ)
    (hne : rs ≠ []) (hlen : rs.length = ws.length) (hall : ∀ r ∈ rs, r ≠ []) :
    (portfolioFromReturns rs ws).length = minLen rs
    ∧ ∀ t, t < minLen rs →
        (portfolioFromReturns rs ws).getD t 0
          = ((rs.zip ws).map (fun p => p.2 * (trailing (minLen rs) p.1).getD t 0)).sum := by
  have hml : minLen (weightedReturns rs ws) = minLen rs :=
    minLen_eq_of_map_length _ _ (weightedReturns_map_length rs ws hlen)
  have hbound : ∀ r ∈ weightedReturns rs ws, minLen (weightedReturns rs ws) ≤ r.length :=
    fun r hr => minLen_le _ r hr
  have hpf : portfolioFromReturns rs ws
      = (weightedReturns rs ws).foldl
          (fun acc r => List.zipWith (· + ·) acc (trailing (minLen (weightedReturns rs ws)) r))
          (List.replicate (minLen (weightedReturns rs ws)) 0) := rfl
  constructor
  · rw [hpf, alignFold_length _ _ _ (List.length_replicate ..) hbound]
    exact hml
  · intro t ht
    have ht' : t < minLen (weightedReturns rs ws) := by rw [hml]; exact ht
    rw [hpf, alignFold_getD _ t ht' _ _ (List.length_replicate ..) hbound]
    have hz : (List.replicate (minLen (weightedReturns rs ws)) (0 : ℚ)).getD t 0 = 0 := by
      rw [List.getD_eq_getElem _ _ (by rw [List.length_replicate]; exact ht'),
        List.getElem_replicate]
    rw [hz, zero_add, hml]
    unfold weightedReturns
    rw [List.map_map]
    refine congrArg List.sum ?_
    apply List.map_congr_left
    rintro ⟨r, w⟩ hp
    have hr : r ∈ rs := (List.of_mem_zip hp).1
    have hL : minLen rs ≤ r.length := minLen_le rs r hr
    show (trailing (minLen rs) (r.map (fun x => x * w))).getD t 0
      = w * (trailing (minLen rs) r).getD t 0
    have hmap : trailing (minLen rs) (r.map (fun x => x * w))
        = (trailing (minLen rs) r).map (fun x => x * w) := by
      unfold trailing
      rw [List.length_map, (List.map_drop ..).symm]
    have htt : t < (trailing (minLen rs) r).length := by
      rw [trailing_length _ _ hL]
      exact ht
    rw [hmap, List.getD_eq_getElem _ _ (by rw [List.length_map]; exact htt),
      List.getElem_map, List.getD_eq_getElem _ _ htt]
    ring

theorem c1_witness :
    (portfolioFromReturns [[1, 2, 3], [4, 5]] [1, 1]).length = minLen [[1, 2, 3], [4, 5]]
    ∧ (portfolioFromReturns [[1, 2, 3], [4, 5]] [1, 1]).getD 1 0
        = ((([[1, 2, 3], [4, 5]] : List (List ℚ)).zip ([1, 1] : List ℚ)).map
            (fun p => p.2 * (trailing (minLen [[1, 2, 3], [4, 5]]) p.1).getD 1 0)).sum :=
  ⟨(c1_portfolio_alignment [[1, 2, 3], [4, 5]] [1, 1] (by decide) rfl (by decide)).1,
    (c1_portfolio_alignment [[1, 2, 3], [4, 5]] [1, 1] (by decide) rfl (by decide)).2 1
      (by decide)⟩

end FinRisk
